import Mathlib

/-!
Shallow embedding of `src/modules/PowerSpectrum.cpp` from the loudness
library, together with theorems checking the module's specification.

`Real` values of the source (band edges, normalisation factors, spectra) are
modelled as rationals; C++ `int` arithmetic is modelled on `ℤ`/`ℕ` (the
quantities involved are small, so no wrap-around modelling is needed).
The FFT collaborator is abstracted as an opaque function argument, as the
spec treats it.
-/

namespace Loudness

/-- Normalisation modes of `PowerSpectrum`.  `OTHER` stands for any
unrecognised enumeration value, which in C++ reaches the `default` branch of
the switch at lines 104–117. -/
inductive Normalisation where
  | NONE
  | ENERGY
  | AVERAGE_POWER
  | OTHER
deriving DecidableEq

/-- Modelled from the spec: `nextPowerOfTwo` (a library utility used at lines
54/64, not under src/) returns the smallest power of two ≥ `n`. -/
def nextPowerOfTwo (n : ℕ) : ℕ := 2 ^ Nat.clog 2 n

/-- Modelled from the spec: `anyAscendingValues` (a library utility used at
line 49, not under src/) is `true` iff the list holds an adjacent ascending
pair. -/
def anyAscendingValues : List ℕ → Bool
  | [] => false
  | [_] => false
  | a :: b :: rest => decide (a < b) || anyAscendingValues (b :: rest)

/-- Parameters held by a `PowerSpectrum` module: the constructor arguments
(lines 24–33) plus the fields behind `setNormalisation` and
`setReferenceValue`. -/
structure PowerSpectrum where
  bandFreqsHz : List ℚ
  windowSizes : List ℕ
  sampleSpectrumUniformly : Bool
  normalisation : Normalisation
  referenceValue : ℚ
deriving DecidableEq

/-- The C++ constructor (lines 24–33): caller supplies edges, window sizes and
the uniform-sampling flag; defaults are `normalisation_ = AVERAGE_POWER` and
`referenceValue_ = 2e-5`. -/
def PowerSpectrum.make (bandFreqsHz : List ℚ) (windowSizes : List ℕ)
    (sampleSpectrumUniformly : Bool) : PowerSpectrum :=
  { bandFreqsHz := bandFreqsHz
    windowSizes := windowSizes
    sampleSpectrumUniformly := sampleSpectrumUniformly
    normalisation := .AVERAGE_POWER
    referenceValue := 2 / 100000 }

/-- The shape data `initializeInternal` reads from its input `SignalBank`. -/
structure SignalBank where
  nEars : ℕ
  nChannels : ℕ
  nSamples : ℕ
  fs : ℕ
  frameRate : ℚ
deriving DecidableEq

/-- Mutable state of the module: FFT engine sizes (`ffts_` — an engine is
characterised by its transform size), per-channel bin index pairs
(`bandBinIndices_`), normalisation factors (`normFactor_`), and the output
bank's declared shape and metadata set at lines 127–143. -/
structure PSState where
  ffts : List ℕ
  bandBinIndices : List (ℤ × ℤ)
  normFactor : List ℚ
  outputShape : Option (ℕ × ℤ)
  centreFreqs : List ℚ
  frameRate : ℚ
deriving DecidableEq

/-- State of a freshly constructed module, before any configure call. -/
def PSState.empty : PSState := ⟨[], [], [], none, [], 0⟩

/-- Error taxonomy of the spec for the `LOUDNESS_ASSERT` failures in
`initializeInternal`: the two count checks (lines 45–48) are ShapeMismatch,
the ordering check (line 49) is InvalidParameter, and the line-83 check is
EmptyBand carrying the offending channel index. -/
inductive PSError where
  | ShapeMismatch
  | InvalidParameter
  | EmptyBand (channel : ℕ)
deriving DecidableEq

/-- `ceil(edge * fftSize / fs)` — the bin-boundary computation of lines 80
and 82. -/
def binCeil (edge : ℚ) (sz fs : ℕ) : ℤ := ⌈edge * sz / fs⌉

/-- Raw (pre-clamp) lower bin index of channel `i` (line 80). -/
def rawLo (edges : List ℚ) (fftSize : List ℕ) (fs : ℕ) (i : ℕ) : ℤ :=
  binCeil (edges.getD i 0) (fftSize.getD i 0) fs

/-- Raw (pre-clamp) upper bin index of channel `i` (line 82). -/
def rawHi (edges : List ℚ) (fftSize : List ℕ) (fs : ℕ) (i : ℕ) : ℤ :=
  binCeil (edges.getD (i + 1) 0) (fftSize.getD i 0) fs

/-- `nyqIdx = (fftSize/2) + (fftSize%2)` (line 87). -/
def nyqIdx (sz : ℕ) : ℤ := ((sz / 2 : ℕ) : ℤ) + ((sz % 2 : ℕ) : ℤ)

/-- The DC clamp (lines 88–92): a computed lower index of exactly 0 becomes
1. -/
def clampLo (lo : ℤ) : ℤ := if lo = 0 then 1 else lo

/-- The Nyquist clamp (lines 93–98): when `hi - 1 ≥ nyqIdx` the upper index
becomes `nyqIdx`. -/
def clampHi (hi nyq : ℤ) : ℤ := if nyq ≤ hi - 1 then nyq else hi

/-- The normalisation switch (lines 102–117): `refSquared = ref²`, then the
mode picks the factor; the `default` branch equals the `ENERGY` one. -/
def normFac (mode : Normalisation) (ref : ℚ) (sz w : ℕ) : ℚ :=
  let refSquared := ref * ref
  match mode with
  | .NONE => 1 / refSquared
  | .ENERGY => 2 / (sz * refSquared)
  | .AVERAGE_POWER => 2 / (sz * w * refSquared)
  | _ => 2 / (sz * refSquared)

/-- The `fftSize` vector (lines 53–68): every entry is
`nextPowerOfTwo(largestWindowSize)` with `largestWindowSize =
input.getNSamples()`, unless per-channel engines are used, in which case entry
`w` is overwritten with `nextPowerOfTwo(windowSizes_[w])`. -/
def fftSizes (P : PowerSpectrum) (input : SignalBank) : List ℕ :=
  if P.sampleSpectrumUniformly then
    List.replicate P.windowSizes.length (nextPowerOfTwo input.nSamples)
  else
    P.windowSizes.map nextPowerOfTwo

/-- `std::vector::resize(n)` with default element `d`: keeps the first `n`
entries and value-initialises any new ones. -/
def resize {α : Type} (l : List α) (n : ℕ) (d : α) : List α :=
  l.take n ++ List.replicate (n - l.length) d

/-- The per-channel configure loop (lines 75–120), taken over the list of
remaining channel indices.  Returns the updated `bandBinIndices_` and
`normFactor_`, the accumulated `nBins`, and `some i` when the line-83
assert (`bandBinIndices_[i][1] > 0`, checked before the clamps) fires at
channel `i`; the raw pair has been stored by then (lines 80–82). -/
def initLoop (edges : List ℚ) (windows fftSize : List ℕ) (fs : ℕ)
    (mode : Normalisation) (ref : ℚ) :
    List ℕ → List (ℤ × ℤ) → List ℚ → ℤ →
    List (ℤ × ℤ) × List ℚ × ℤ × Option ℕ
  | [], bbi, nf, nBins => (bbi, nf, nBins, none)
  | i :: rest, bbi, nf, nBins =>
    let lo := rawLo edges fftSize fs i
    let hi := rawHi edges fftSize fs i
    if hi ≤ 0 then (bbi.set i (lo, hi), nf, nBins, some i)
    else
      let sz := fftSize.getD i 0
      let lo1 := clampLo lo
      let hi1 := clampHi hi (nyqIdx sz)
      initLoop edges windows fftSize fs mode ref rest
        (bbi.set i (lo1, hi1))
        (nf.set i (normFac mode ref sz (windows.getD i 0)))
        (nBins + (hi1 - lo1))

/-- The ascending bin indices `lo, lo+1, …, hi-1` iterated by the
`while (j < hi)` loops of lines 135 and 168. -/
def binRange (lo hi : ℤ) : List ℤ :=
  (List.range (hi - lo).toNat).map (fun k : ℕ => lo + (k : ℤ))

/-- Output centre frequencies (lines 131–143): `j*fs/fftSize[i]` for each kept
bin `j`, bins ascending within a channel, channels in declared order. -/
def centreFreqList (bbi : List (ℤ × ℤ)) (fftSize : List ℕ) (fs : ℕ) (n : ℕ) :
    List ℚ :=
  ((List.range n).map (fun i =>
    (binRange (bbi.getD i (0, 0)).1 (bbi.getD i (0, 0)).2).map
      (fun j => ((j : ℚ) * fs) / (fftSize.getD i 0)))).flatten

/-- Writes `f i` at position `i` for each listed index, in order — the shape
taken by the in-place updates of the configure loop. -/
def setEach {α : Type} (l : List α) (is : List ℕ) (f : ℕ → α) : List α :=
  is.foldl (fun acc i => acc.set i (f i)) l

/-- The bin index pair of channel `i` after both clamps. -/
def clampedPair (edges : List ℚ) (fftSize : List ℕ) (fs : ℕ) (i : ℕ) : ℤ × ℤ :=
  (clampLo (rawLo edges fftSize fs i),
   clampHi (rawHi edges fftSize fs i) (nyqIdx (fftSize.getD i 0)))

/-- The normalisation factor of channel `i`. -/
def chanFac (windows fftSize : List ℕ) (mode : Normalisation) (ref : ℚ)
    (i : ℕ) : ℚ :=
  normFac mode ref (fftSize.getD i 0) (windows.getD i 0)

/-- The post-clamp width `binHi - binLo` of channel `i`, the channel's
contribution to `nBins` (line 100). -/
def chanWidth (edges : List ℚ) (fftSize : List ℕ) (fs : ℕ) (i : ℕ) : ℤ :=
  (clampedPair edges fftSize fs i).2 - (clampedPair edges fftSize fs i).1

/-- The state an accepted configure call establishes.  This is a derived
description (proved equal to the result of `initializeInternal` below), not a
translation of the source. -/
def configuredState (P : PowerSpectrum) (input : SignalBank) : PSState :=
  let n := P.windowSizes.length
  let fftSize := fftSizes P input
  let bbi := (List.range n).map (clampedPair P.bandFreqsHz fftSize input.fs)
  { ffts := if P.sampleSpectrumUniformly then [nextPowerOfTwo input.nSamples]
            else fftSize
    bandBinIndices := bbi
    normFactor := (List.range n).map
      (chanFac P.windowSizes fftSize P.normalisation P.referenceValue)
    outputShape := some (input.nEars,
      ((List.range n).map (chanWidth P.bandFreqsHz fftSize input.fs)).sum)
    centreFreqs := centreFreqList bbi fftSize input.fs n
    frameRate := input.frameRate }

/-- `PowerSpectrum::initializeInternal` (lines 38–146), with the module state
made explicit.  Returns the state exactly as the call leaves it, together with
`some` error when one of the asserts fires: note `ffts_.clear()` runs first
(line 41), and the shape/order asserts run before any engine is rebuilt. -/
def initializeInternal (P : PowerSpectrum) (prior : PSState)
    (input : SignalBank) : PSState × Option PSError :=
  let s0 : PSState := { prior with ffts := [] }
  let nWindows := P.windowSizes.length
  if input.nChannels ≠ nWindows then (s0, some .ShapeMismatch)
  else if P.bandFreqsHz.length ≠ nWindows + 1 then (s0, some .ShapeMismatch)
  else if anyAscendingValues P.windowSizes then (s0, some .InvalidParameter)
  else
    let fftSize := fftSizes P input
    let s1 : PSState := { s0 with
      ffts := if P.sampleSpectrumUniformly then [nextPowerOfTwo input.nSamples]
              else fftSize }
    let bbi0 := resize prior.bandBinIndices nWindows (0, 0)
    let nf0 := resize prior.normFactor nWindows 0
    match initLoop P.bandFreqsHz P.windowSizes fftSize input.fs
        P.normalisation P.referenceValue (List.range nWindows) bbi0 nf0 0 with
    | (bbi, nf, _, some i) =>
      ({ s1 with bandBinIndices := bbi, normFactor := nf },
       some (.EmptyBand i))
    | (bbi, nf, nBins, none) =>
      ({ s1 with
          bandBinIndices := bbi
          normFactor := nf
          outputShape := some (input.nEars, nBins)
          centreFreqs := centreFreqList bbi fftSize input.fs nWindows
          frameRate := input.frameRate }, none)

/-- The inner `while (bin < hi)` loop of `processInternal` (lines 166–173):
appends `normFactor·(re² + im²)` for each bin, advancing the flat write
cursor (modelled by appending to the output written so far). -/
def powerLoop (nf : ℚ) (engine : ℤ → ℚ × ℚ) (bin hi : ℤ) (out : List ℚ) :
    List ℚ :=
  if bin < hi then
    let re := (engine bin).1
    let im := (engine bin).2
    powerLoop nf engine (bin + 1) hi (out ++ [nf * (re * re + im * im)])
  else out
termination_by (hi - bin).toNat
decreasing_by omega

/-- `PowerSpectrum::processInternal` (lines 148–176).  The FFT collaborator is
abstracted as `fft size samples bin = (re, im)` — the spectrum an engine of
the given transform size yields on the given samples; `signal ear chn` is the
input frame.  Per ear, channels write in declared order into one flat list,
the shared engine 0 being selected when sampling uniformly, else engine
`chn`. -/
def processInternal (P : PowerSpectrum) (s : PSState)
    (fft : ℕ → List ℚ → ℤ → ℚ × ℚ) (signal : ℕ → ℕ → List ℚ) (nEars : ℕ) :
    List (List ℚ) :=
  let nWindows := P.windowSizes.length
  (List.range nEars).map (fun ear =>
    (List.range nWindows).foldl (fun out chn =>
      let fftIdx := if P.sampleSpectrumUniformly then 0 else chn
      let engine := fft (s.ffts.getD fftIdx 0)
        ((signal ear chn).take (P.windowSizes.getD chn 0))
      powerLoop (s.normFactor.getD chn 0) engine
        (s.bandBinIndices.getD chn (0, 0)).1
        (s.bandBinIndices.getD chn (0, 0)).2 out) [])

/-! ### List utility lemmas -/

theorem setEach_nil {α : Type} (l : List α) (f : ℕ → α) :
    setEach l [] f = l := rfl

theorem setEach_cons {α : Type} (l : List α) (i : ℕ) (is : List ℕ)
    (f : ℕ → α) : setEach l (i :: is) f = setEach (l.set i (f i)) is f := rfl

theorem setEach_length {α : Type} (f : ℕ → α) :
    ∀ (is : List ℕ) (l : List α), (setEach l is f).length = l.length := by
  intro is
  induction is with
  | nil => intro l; rfl
  | cons i is ih =>
    intro l
    rw [setEach_cons, ih, List.length_set]

theorem setEach_getElem? {α : Type} (f : ℕ → α) :
    ∀ (is : List ℕ) (l : List α) (j : ℕ),
      (setEach l is f)[j]? =
        if j ∈ is ∧ j < l.length then some (f j) else l[j]? := by
  intro is
  induction is with
  | nil => intro l j; simp [setEach_nil]
  | cons i is ih =>
    intro l j
    rw [setEach_cons, ih]
    by_cases hji : j = i
    · subst hji
      by_cases hlen : j < l.length
      · by_cases hmem : j ∈ is <;>
          simp [hmem, hlen, List.getElem?_set_self, hlen]
      · have hset : l.set j (f j) = l := List.set_eq_of_length_le (by omega)
        by_cases hmem : j ∈ is <;> simp [hmem, hlen, hset]
    · have hne : (l.set i (f i))[j]? = l[j]? :=
        List.getElem?_set_ne (by omega)
      by_cases hmem : j ∈ is <;>
        simp [hmem, hji, hne, List.length_set]

theorem setEach_range_eq_map {α : Type} (f : ℕ → α) (l : List α) (n : ℕ)
    (hl : l.length = n) : setEach l (List.range n) f = (List.range n).map f := by
  apply List.ext_getElem?
  intro j
  rw [setEach_getElem?]
  by_cases hj : j < n
  · simp [hj, hl, List.getElem?_map, List.getElem?_range hj]
  · have h1 : (List.range n)[j]? = none := by
      rw [List.getElem?_eq_none_iff]; simpa using Nat.le_of_not_lt hj
    have h2 : l[j]? = none := by
      rw [List.getElem?_eq_none_iff]; omega
    simp [hj, hl, h2, List.getElem?_map, h1]

theorem resize_length {α : Type} (l : List α) (n : ℕ) (d : α) :
    (resize l n d).length = n := by
  simp [resize]
  omega

theorem getD_map_range {α : Type} (f : ℕ → α) (n i : ℕ) (hi : i < n) (d : α) :
    ((List.range n).map f).getD i d = f i := by
  rw [List.getD_eq_getElem?_getD, List.getElem?_map, List.getElem?_range hi]
  rfl

theorem foldl_append_eq_flatten {α β : Type} (g : α → List β) :
    ∀ (l : List α) (f : List β → α → List β),
      (∀ out c, f out c = out ++ g c) →
      ∀ init : List β, l.foldl f init = init ++ (l.map g).flatten := by
  intro l
  induction l with
  | nil => intro f hf init; simp
  | cons c l ih =>
    intro f hf init
    rw [List.foldl_cons, hf, ih f hf, List.map_cons, List.flatten_cons,
      List.append_assoc]

/-! ### Configure-loop characterisation -/

theorem initLoop_ok (edges : List ℚ) (windows fftSize : List ℕ) (fs : ℕ)
    (mode : Normalisation) (ref : ℚ) :
    ∀ (m a : ℕ) (bbi : List (ℤ × ℤ)) (nf : List ℚ) (acc : ℤ),
      (∀ i, a ≤ i → i < a + m → 0 < rawHi edges fftSize fs i) →
      initLoop edges windows fftSize fs mode ref (List.range' a m) bbi nf acc =
        (setEach bbi (List.range' a m) (clampedPair edges fftSize fs),
         setEach nf (List.range' a m) (chanFac windows fftSize mode ref),
         acc + ((List.range' a m).map (chanWidth edges fftSize fs)).sum,
         none) := by
  intro m
  induction m with
  | zero =>
    intro a bbi nf acc _
    simp [List.range'_zero, initLoop, setEach_nil]
  | succ m ih =>
    intro a bbi nf acc h
    have ha : 0 < rawHi edges fftSize fs a := h a (le_refl a) (by omega)
    rw [List.range'_succ]
    show initLoop edges windows fftSize fs mode ref
        (a :: List.range' (a + 1) m) bbi nf acc = _
    rw [initLoop]
    rw [if_neg (by omega)]
    rw [ih (a + 1) _ _ _ (fun i h1 h2 => h i (by omega) (by omega))]
    rw [setEach_cons, setEach_cons]
    have : (clampLo (rawLo edges fftSize fs a),
        clampHi (rawHi edges fftSize fs a) (nyqIdx (fftSize.getD a 0))) =
        clampedPair edges fftSize fs a := rfl
    rw [this]
    simp only [List.map_cons, List.sum_cons, chanFac, chanWidth]
    rw [Prod.mk.injEq, Prod.mk.injEq, Prod.mk.injEq]
    refine ⟨rfl, rfl, ?_, rfl⟩
    simp only [clampedPair]
    ring

theorem initLoop_some (edges : List ℚ) (windows fftSize : List ℕ) (fs : ℕ)
    (mode : Normalisation) (ref : ℚ) :
    ∀ (m a : ℕ) (bbi : List (ℤ × ℤ)) (nf : List ℚ) (acc : ℤ) (k : ℕ),
      (initLoop edges windows fftSize fs mode ref
        (List.range' a m) bbi nf acc).2.2.2 = some k →
      a ≤ k ∧ k < a + m ∧ rawHi edges fftSize fs k ≤ 0 ∧
        ∀ j, a ≤ j → j < k → 0 < rawHi edges fftSize fs j := by
  intro m
  induction m with
  | zero =>
    intro a bbi nf acc k hk
    simp [List.range'_zero, initLoop] at hk
  | succ m ih =>
    intro a bbi nf acc k hk
    rw [List.range'_succ] at hk
    rw [initLoop] at hk
    by_cases ha : rawHi edges fftSize fs a ≤ 0
    · rw [if_pos ha] at hk
      simp only [Option.some.injEq] at hk
      subst hk
      exact ⟨le_refl a, by omega, ha, fun j h1 h2 => by omega⟩
    · rw [if_neg ha] at hk
      obtain ⟨h1, h2, h3, h4⟩ := ih (a + 1) _ _ _ k hk
      refine ⟨by omega, by omega, h3, fun j hj1 hj2 => ?_⟩
      by_cases hja : j = a
      · subst hja; omega
      · exact h4 j (by omega) hj2

theorem initLoop_stuck (edges : List ℚ) (windows fftSize : List ℕ) (fs : ℕ)
    (mode : Normalisation) (ref : ℚ) :
    ∀ (m a : ℕ) (bbi : List (ℤ × ℤ)) (nf : List ℚ) (acc : ℤ) (i : ℕ),
      a ≤ i → i < a + m → rawHi edges fftSize fs i ≤ 0 →
      (initLoop edges windows fftSize fs mode ref
        (List.range' a m) bbi nf acc).2.2.2 ≠ none := by
  intro m
  induction m with
  | zero => intro a bbi nf acc i h1 h2 _; omega
  | succ m ih =>
    intro a bbi nf acc i h1 h2 h3
    rw [List.range'_succ, initLoop]
    by_cases ha : rawHi edges fftSize fs a ≤ 0
    · rw [if_pos ha]; simp
    · rw [if_neg ha]
      have hia : i ≠ a := fun h => ha (h ▸ h3)
      exact ih (a + 1) _ _ _ i (by omega) (by omega) h3

/-! ### Top-level characterisation of `initializeInternal` -/

theorem init_err_channels (P : PowerSpectrum) (prior : PSState)
    (input : SignalBank) (h : input.nChannels ≠ P.windowSizes.length) :
    initializeInternal P prior input =
      ({ prior with ffts := [] }, some .ShapeMismatch) := by
  simp only [initializeInternal]
  rw [if_pos h]

theorem init_err_edges (P : PowerSpectrum) (prior : PSState)
    (input : SignalBank) (h1 : input.nChannels = P.windowSizes.length)
    (h : P.bandFreqsHz.length ≠ P.windowSizes.length + 1) :
    initializeInternal P prior input =
      ({ prior with ffts := [] }, some .ShapeMismatch) := by
  simp only [initializeInternal]
  rw [if_neg (by omega), if_pos h]

theorem init_err_ascending (P : PowerSpectrum) (prior : PSState)
    (input : SignalBank) (h1 : input.nChannels = P.windowSizes.length)
    (h2 : P.bandFreqsHz.length = P.windowSizes.length + 1)
    (h : anyAscendingValues P.windowSizes = true) :
    initializeInternal P prior input =
      ({ prior with ffts := [] }, some .InvalidParameter) := by
  simp only [initializeInternal]
  rw [if_neg (by omega), if_neg (by omega), if_pos h]

theorem initializeInternal_ok (P : PowerSpectrum) (prior : PSState)
    (input : SignalBank)
    (h1 : input.nChannels = P.windowSizes.length)
    (h2 : P.bandFreqsHz.length = P.windowSizes.length + 1)
    (h3 : anyAscendingValues P.windowSizes = false)
    (h4 : ∀ i < P.windowSizes.length,
      0 < rawHi P.bandFreqsHz (fftSizes P input) input.fs i) :
    initializeInternal P prior input = (configuredState P input, none) := by
  simp only [initializeInternal]
  rw [if_neg (by omega), if_neg (by omega), if_neg (by simp [h3]),
    List.range_eq_range',
    initLoop_ok P.bandFreqsHz P.windowSizes (fftSizes P input) input.fs
      P.normalisation P.referenceValue P.windowSizes.length 0
      (resize prior.bandBinIndices P.windowSizes.length (0, 0))
      (resize prior.normFactor P.windowSizes.length 0) 0
      (fun i hi1 hi2 => h4 i (by omega)),
    ← List.range_eq_range',
    setEach_range_eq_map _ _ _ (resize_length _ _ _),
    setEach_range_eq_map _ _ _ (resize_length _ _ _)]
  simp only [configuredState, zero_add]

theorem init_success_iff (P : PowerSpectrum) (prior : PSState)
    (input : SignalBank) :
    (initializeInternal P prior input).2 = none ↔
      (input.nChannels = P.windowSizes.length ∧
       P.bandFreqsHz.length = P.windowSizes.length + 1 ∧
       anyAscendingValues P.windowSizes = false ∧
       ∀ i < P.windowSizes.length,
         0 < rawHi P.bandFreqsHz (fftSizes P input) input.fs i) := by
  constructor
  · intro h
    by_cases h1 : input.nChannels = P.windowSizes.length
    case neg => rw [init_err_channels P prior input h1] at h; simp at h
    by_cases h2 : P.bandFreqsHz.length = P.windowSizes.length + 1
    case neg => rw [init_err_edges P prior input h1 h2] at h; simp at h
    by_cases h3 : anyAscendingValues P.windowSizes = true
    case pos => rw [init_err_ascending P prior input h1 h2 h3] at h; simp at h
    refine ⟨h1, h2, by simpa using h3, ?_⟩
    by_contra hbad
    push_neg at hbad
    obtain ⟨i, hi, hle⟩ := hbad
    simp only [initializeInternal] at h
    rw [if_neg (by omega), if_neg (by omega), if_neg (by simp_all)] at h
    rw [List.range_eq_range'] at h
    have := initLoop_stuck P.bandFreqsHz P.windowSizes (fftSizes P input)
      input.fs P.normalisation P.referenceValue P.windowSizes.length 0
      (resize prior.bandBinIndices P.windowSizes.length (0, 0))
      (resize prior.normFactor P.windowSizes.length 0) 0 i (by omega)
      (by omega) (by omega)
    revert h this
    rcases initLoop P.bandFreqsHz P.windowSizes (fftSizes P input) input.fs
        P.normalisation P.referenceValue
        (List.range' 0 P.windowSizes.length)
        (resize prior.bandBinIndices P.windowSizes.length (0, 0))
        (resize prior.normFactor P.windowSizes.length 0) 0 with
      ⟨bbi, nf, nBins, err⟩
    rcases err with _ | k <;> simp
  · rintro ⟨h1, h2, h3, h4⟩
    rw [initializeInternal_ok P prior input h1 h2 h3 h4]

theorem init_empty_band (P : PowerSpectrum) (prior : PSState)
    (input : SignalBank) (k : ℕ)
    (h : (initializeInternal P prior input).2 = some (.EmptyBand k)) :
    k < P.windowSizes.length ∧
    rawHi P.bandFreqsHz (fftSizes P input) input.fs k ≤ 0 ∧
    ∀ j < k, 0 < rawHi P.bandFreqsHz (fftSizes P input) input.fs j := by
  by_cases h1 : input.nChannels = P.windowSizes.length
  case neg => rw [init_err_channels P prior input h1] at h; simp at h
  by_cases h2 : P.bandFreqsHz.length = P.windowSizes.length + 1
  case neg => rw [init_err_edges P prior input h1 h2] at h; simp at h
  by_cases h3 : anyAscendingValues P.windowSizes = true
  case pos => rw [init_err_ascending P prior input h1 h2 h3] at h; simp at h
  simp only [initializeInternal] at h
  rw [if_neg (by omega), if_neg (by omega), if_neg (by simp_all)] at h
  rw [List.range_eq_range'] at h
  have hsome := initLoop_some P.bandFreqsHz P.windowSizes (fftSizes P input)
    input.fs P.normalisation P.referenceValue P.windowSizes.length 0
    (resize prior.bandBinIndices P.windowSizes.length (0, 0))
    (resize prior.normFactor P.windowSizes.length 0) 0 k
  revert h hsome
  rcases initLoop P.bandFreqsHz P.windowSizes (fftSizes P input) input.fs
      P.normalisation P.referenceValue
      (List.range' 0 P.windowSizes.length)
      (resize prior.bandBinIndices P.windowSizes.length (0, 0))
      (resize prior.normFactor P.windowSizes.length 0) 0 with
    ⟨bbi, nf, nBins, err⟩
  rcases err with _ | i
  · simp
  · intro hmatch himp
    simp only [Option.some.injEq, PSError.EmptyBand.injEq] at hmatch
    obtain ⟨hh1, hh2, hh3, hh4⟩ := himp (by simp [hmatch])
    exact ⟨by omega, hh3, fun j hj => hh4 j (by omega) hj⟩

/-! ### FFT sizing and engine facts -/

theorem nextPowerOfTwo_pos (n : ℕ) : 0 < nextPowerOfTwo n :=
  pow_pos (by norm_num) _

theorem fftSizes_length (P : PowerSpectrum) (input : SignalBank) :
    (fftSizes P input).length = P.windowSizes.length := by
  unfold fftSizes; split <;> simp

theorem fftSizes_getD (P : PowerSpectrum) (input : SignalBank) (i : ℕ)
    (hi : i < P.windowSizes.length) :
    (fftSizes P input).getD i 0 =
      if P.sampleSpectrumUniformly then nextPowerOfTwo input.nSamples
      else nextPowerOfTwo (P.windowSizes.getD i 0) := by
  unfold fftSizes
  split
  · rw [List.getD_eq_getElem?_getD, List.getElem?_replicate, if_pos hi]
    rfl
  · rw [List.getD_eq_getElem?_getD, List.getElem?_map,
      List.getElem?_eq_getElem hi]
    rw [List.getD_eq_getElem?_getD, List.getElem?_eq_getElem hi]
    rfl

theorem fftSizes_getD_pos (P : PowerSpectrum) (input : SignalBank) (i : ℕ)
    (hi : i < P.windowSizes.length) : 0 < (fftSizes P input).getD i 0 := by
  rw [fftSizes_getD P input i hi]
  split <;> exact nextPowerOfTwo_pos _

theorem init_ffts (P : PowerSpectrum) (prior : PSState) (input : SignalBank)
    (h1 : input.nChannels = P.windowSizes.length)
    (h2 : P.bandFreqsHz.length = P.windowSizes.length + 1)
    (h3 : anyAscendingValues P.windowSizes = false) :
    (initializeInternal P prior input).1.ffts =
      if P.sampleSpectrumUniformly then [nextPowerOfTwo input.nSamples]
      else fftSizes P input := by
  simp only [initializeInternal]
  rw [if_neg (by omega), if_neg (by omega), if_neg (by simp [h3])]
  rcases initLoop P.bandFreqsHz P.windowSizes (fftSizes P input) input.fs
      P.normalisation P.referenceValue (List.range P.windowSizes.length)
      (resize prior.bandBinIndices P.windowSizes.length (0, 0))
      (resize prior.normFactor P.windowSizes.length 0) 0 with
    ⟨bbi, nf, nBins, err⟩
  rcases err with _ | i <;> rfl

/-! ### Bin iteration and the process loop -/

theorem binRange_cons (lo hi : ℤ) (h : lo < hi) :
    binRange lo hi = lo :: binRange (lo + 1) hi := by
  unfold binRange
  have h1 : (hi - lo).toNat = (hi - (lo + 1)).toNat + 1 := by omega
  rw [h1, List.range_succ_eq_map, List.map_cons, List.map_map]
  refine congrArg₂ _ (by simp) (List.map_congr_left ?_)
  intro a _
  simp only [Function.comp_apply]
  push_cast
  ring

theorem binRange_empty (lo hi : ℤ) (h : hi ≤ lo) : binRange lo hi = [] := by
  unfold binRange
  have h1 : (hi - lo).toNat = 0 := by omega
  rw [h1, List.range_zero, List.map_nil]

theorem powerLoop_eq (nf : ℚ) (engine : ℤ → ℚ × ℚ) :
    ∀ (fuel : ℕ) (lo hi : ℤ), (hi - lo).toNat = fuel → ∀ out : List ℚ,
      powerLoop nf engine lo hi out =
        out ++ (binRange lo hi).map (fun bin =>
          nf * ((engine bin).1 * (engine bin).1 +
                (engine bin).2 * (engine bin).2)) := by
  intro fuel
  induction fuel with
  | zero =>
    intro lo hi hf out
    rw [powerLoop, if_neg (by omega), binRange_empty lo hi (by omega),
      List.map_nil, List.append_nil]
  | succ fuel ih =>
    intro lo hi hf out
    have h : lo < hi := by omega
    rw [powerLoop]
    simp only [if_pos h]
    rw [ih (lo + 1) hi (by omega), binRange_cons lo hi h, List.map_cons]
    rw [List.append_assoc, List.singleton_append]

/-! ### Ascending-pair characterisation -/

theorem anyAscendingValues_iff :
    ∀ l : List ℕ, anyAscendingValues l = true ↔
      ∃ j, j + 1 < l.length ∧ l.getD j 0 < l.getD (j + 1) 0 := by
  intro l
  induction l with
  | nil => simp [anyAscendingValues]
  | cons a l ih =>
    cases l with
    | nil => simp [anyAscendingValues]
    | cons b t =>
      show (decide (a < b) || anyAscendingValues (b :: t)) = true ↔ _
      simp only [Bool.or_eq_true, decide_eq_true_eq, ih]
      constructor
      · rintro (hab | ⟨j, hj, hlt⟩)
        · exact ⟨0, by simp, by simpa using hab⟩
        · exact ⟨j + 1, by simpa using hj, by simpa using hlt⟩
      · rintro ⟨j, hj, hlt⟩
        cases j with
        | zero => left; simpa using hlt
        | succ j =>
          right
          exact ⟨j, by simpa using hj, by simpa using hlt⟩

theorem config_bbi_getD (P : PowerSpectrum) (input : SignalBank) (i : ℕ)
    (hi : i < P.windowSizes.length) :
    (configuredState P input).bandBinIndices.getD i (0, 0) =
      clampedPair P.bandFreqsHz (fftSizes P input) input.fs i :=
  getD_map_range _ _ _ hi _

theorem config_nf_getD (P : PowerSpectrum) (input : SignalBank) (i : ℕ)
    (hi : i < P.windowSizes.length) :
    (configuredState P input).normFactor.getD i 0 =
      chanFac P.windowSizes (fftSizes P input) P.normalisation
        P.referenceValue i :=
  getD_map_range _ _ _ hi _

theorem nyqIdx_pos (sz : ℕ) (h : 0 < sz) : 0 < nyqIdx sz := by
  unfold nyqIdx
  have : 1 ≤ sz / 2 + sz % 2 := by omega
  push_cast
  omega

theorem clampHi_pos (hi nyq : ℤ) (hhi : 0 < hi) (hnyq : 0 < nyq) :
    0 < clampHi hi nyq := by
  unfold clampHi
  split <;> omega

theorem rawHi_pos_of (edges : List ℚ) (fftSize : List ℕ) (fs : ℕ) (i : ℕ)
    (h : 0 < edges.getD (i + 1) 0) (hsz : 0 < fftSize.getD i 0)
    (hfs : 0 < fs) : 0 < rawHi edges fftSize fs i := by
  unfold rawHi binCeil
  rw [Int.lt_ceil]
  simp only [Int.cast_zero]
  have hsz' : (0 : ℚ) < (fftSize.getD i 0 : ℚ) := by exact_mod_cast hsz
  have hfs' : (0 : ℚ) < (fs : ℚ) := by exact_mod_cast hfs
  exact div_pos (mul_pos h hsz') hfs'

/-! ### Claim theorems -/

/-- C1: for every channel `i`, configure computes the pre-clamp bin range as
`binLo = ceil(bandEdges[i]·fftSize[i]/fs)` and
`binHi = ceil(bandEdges[i+1]·fftSize[i]/fs)` (`rawLo`/`rawHi`, the literal
line-80/82 computation used by `initLoop`), with half-open semantics: a bin
`k` satisfies `binLo ≤ k < binHi` iff its centre frequency `k·fs/fftSize[i]`
lies in `[bandEdges[i], bandEdges[i+1])`. -/
theorem claim_C1_half_open_bin_range (edges : List ℚ) (fftSize : List ℕ)
    (fs : ℕ) (i : ℕ) (k : ℤ) (hfs : 0 < fs) (hsz : 0 < fftSize.getD i 0) :
    (rawLo edges fftSize fs i ≤ k ∧ k < rawHi edges fftSize fs i) ↔
      (edges.getD i 0 ≤ (k : ℚ) * fs / (fftSize.getD i 0) ∧
       (k : ℚ) * fs / (fftSize.getD i 0) < edges.getD (i + 1) 0) := by
  have hfs' : (0 : ℚ) < (fs : ℚ) := by exact_mod_cast hfs
  have hsz' : (0 : ℚ) < ((fftSize.getD i 0 : ℕ) : ℚ) := by exact_mod_cast hsz
  unfold rawLo rawHi binCeil
  rw [Int.ceil_le, Int.lt_ceil, div_le_iff₀ hfs', lt_div_iff₀ hfs',
    le_div_iff₀ hsz', div_lt_iff₀ hsz']

/-- C1 witness: channel 0, edges `[1, 2]` Hz, fftSize `[4]`, `fs = 4`,
bin `k = 1` is selected. -/
theorem claim_C1_half_open_bin_range_witness :
    rawLo [1, 2] [4] 4 0 ≤ 1 ∧ (1 : ℤ) < rawHi [1, 2] [4] 4 0 :=
  (claim_C1_half_open_bin_range [1, 2] [4] 4 0 1 (by norm_num)
    (by decide)).mpr (by norm_num)

/-- C3: with uniform sampling enabled configure creates exactly one shared
FFT engine sized to the smallest power of two ≥ the largest window size (the
code takes `largestWindowSize = input.getNSamples()`, assumed here equal to
the largest window size); with it disabled, each channel `i` gets its own
engine sized to the smallest power of two ≥ `windowSizes[i]`; and
`nextPowerOfTwo n` is indeed the least power of two ≥ `n`. -/
theorem claim_C3_fft_engines (P : PowerSpectrum) (prior : PSState)
    (input : SignalBank)
    (h1 : input.nChannels = P.windowSizes.length)
    (h2 : P.bandFreqsHz.length = P.windowSizes.length + 1)
    (h3 : anyAscendingValues P.windowSizes = false)
    (hmax : input.nSamples = P.windowSizes.foldr max 0) :
    (P.sampleSpectrumUniformly = true →
      (initializeInternal P prior input).1.ffts =
        [nextPowerOfTwo (P.windowSizes.foldr max 0)]) ∧
    (P.sampleSpectrumUniformly = false →
      (initializeInternal P prior input).1.ffts =
        P.windowSizes.map nextPowerOfTwo) ∧
    (∀ n : ℕ, (∃ j, nextPowerOfTwo n = 2 ^ j) ∧ n ≤ nextPowerOfTwo n ∧
      ∀ (m j : ℕ), n ≤ m → m = 2 ^ j → nextPowerOfTwo n ≤ m) := by
  rw [init_ffts P prior input h1 h2 h3]
  refine ⟨fun hu => ?_, fun hu => ?_, fun n => ?_⟩
  · rw [if_pos hu, hmax]
  · rw [if_neg (by simp [hu])]
    unfold fftSizes
    rw [if_neg (by simp [hu])]
  · refine ⟨⟨Nat.clog 2 n, rfl⟩, Nat.le_pow_clog (by norm_num) n, ?_⟩
    intro m j hnm hmj
    subst hmj
    exact Nat.pow_le_pow_right (by norm_num)
      ((Nat.le_pow_iff_clog_le (by norm_num)).mp hnm)

/-- C3 witness: two channels with windows `[4, 2]`, uniform sampling on,
frame length 4 (the largest window): one shared engine of size
`nextPowerOfTwo 4`. -/
theorem claim_C3_fft_engines_witness :
    (initializeInternal (.make [0, 1, 2] [4, 2] true) .empty
      ⟨1, 2, 4, 8, 0⟩).1.ffts = [nextPowerOfTwo 4] :=
  (claim_C3_fft_engines (.make [0, 1, 2] [4, 2] true) .empty ⟨1, 2, 4, 8, 0⟩
    rfl rfl (by decide) (by decide)).1 rfl

/-- C9: configure fails with ShapeMismatch when the input channel count
differs from the window count, or the band-edge count differs from the window
count plus one; and, with counts consistent, fails with InvalidParameter
whenever the window sizes contain an ascending adjacent pair — for any
band-edge values and any sample rate (these checks precede all bin
computation). -/
theorem claim_C9_validation_errors (P : PowerSpectrum) (prior : PSState)
    (input : SignalBank) :
    ((input.nChannels ≠ P.windowSizes.length ∨
      P.bandFreqsHz.length ≠ P.windowSizes.length + 1) →
      (initializeInternal P prior input).2 = some .ShapeMismatch) ∧
    (input.nChannels = P.windowSizes.length →
     P.bandFreqsHz.length = P.windowSizes.length + 1 →
     (∃ j, j + 1 < P.windowSizes.length ∧
        P.windowSizes.getD j 0 < P.windowSizes.getD (j + 1) 0) →
      (initializeInternal P prior input).2 = some .InvalidParameter) := by
  constructor
  · rintro (h | h)
    · rw [init_err_channels P prior input h]
    · by_cases h1 : input.nChannels = P.windowSizes.length
      · rw [init_err_edges P prior input h1 h]
      · rw [init_err_channels P prior input h1]
  · intro h1 h2 hasc
    rw [init_err_ascending P prior input h1 h2
      ((anyAscendingValues_iff P.windowSizes).mpr hasc)]

/-- C9 witness: 3 windows with only 3 band edges fails with ShapeMismatch;
ascending windows `[2, 4]` (with consistent counts) fails with
InvalidParameter. -/
theorem claim_C9_validation_errors_witness :
    (initializeInternal (.make [1, 2, 3] [4, 2, 2] false) .empty
      ⟨1, 3, 4, 4, 0⟩).2 = some .ShapeMismatch ∧
    (initializeInternal (.make [1, 2, 3] [2, 4] false) .empty
      ⟨1, 2, 4, 4, 0⟩).2 = some .InvalidParameter :=
  ⟨(claim_C9_validation_errors _ _ _).1 (Or.inr (by decide)),
   (claim_C9_validation_errors _ _ _).2 rfl rfl ⟨0, by decide, by decide⟩⟩

/-- C4: after a successful configure, any channel whose computed `binLo`
equals 0 has effective `binLo` exactly 1 (DC excluded as a clamp, not a
failure), and no bin index in any channel's configured `[binLo, binHi)` range
reaches `floor(fftSize/2) + (1 if fftSize odd)`, so no emitted bin is at or
above Nyquist. -/
theorem claim_C4_dc_nyquist (P : PowerSpectrum) (prior : PSState)
    (input : SignalBank)
    (hsucc : (initializeInternal P prior input).2 = none)
    (i : ℕ) (hi : i < P.windowSizes.length) :
    (rawLo P.bandFreqsHz (fftSizes P input) input.fs i = 0 →
      ((initializeInternal P prior input).1.bandBinIndices.getD i (0, 0)).1
        = 1) ∧
    (∀ k : ℤ,
      ((initializeInternal P prior input).1.bandBinIndices.getD i (0, 0)).1
        ≤ k →
      k < ((initializeInternal P prior input).1.bandBinIndices.getD i
        (0, 0)).2 →
      k < nyqIdx ((fftSizes P input).getD i 0)) := by
  obtain ⟨h1, h2, h3, h4⟩ := (init_success_iff P prior input).mp hsucc
  rw [initializeInternal_ok P prior input h1 h2 h3 h4]
  have hpair :
      ((configuredState P input, (none : Option PSError)).1.bandBinIndices.getD
        i (0, 0)) =
      clampedPair P.bandFreqsHz (fftSizes P input) input.fs i :=
    config_bbi_getD P input i hi
  rw [hpair]
  constructor
  · intro h0
    simp [clampedPair, clampLo, h0]
  · intro k hk1 hk2
    simp only [clampedPair, clampHi] at hk2
    by_cases hc : nyqIdx ((fftSizes P input).getD i 0) ≤
        rawHi P.bandFreqsHz (fftSizes P input) input.fs i - 1
    · rw [if_pos hc] at hk2
      exact hk2
    · rw [if_neg hc] at hk2
      omega

/-- C4 witness: edges `[0, 100000]` Hz, window `[16]`, fs 32000: configure
succeeds and the DC bin is excluded, the stored lower index being exactly 1. -/
theorem claim_C4_dc_nyquist_witness :
    ((initializeInternal (.make [0, 100000] [16] false) .empty
      ⟨1, 1, 16, 32000, 0⟩).1.bandBinIndices.getD 0 (0, 0)).1 = 1 :=
  (claim_C4_dc_nyquist (.make [0, 100000] [16] false) .empty
    ⟨1, 1, 16, 32000, 0⟩
    ((init_success_iff _ _ _).mpr ⟨rfl, rfl, by decide, by
      intro i hi
      have hi1 : i < 1 := hi
      interval_cases i
      exact rawHi_pos_of _ _ _ 0 (by norm_num [PowerSpectrum.make]) (fftSizes_getD_pos _ _ 0
        (by decide)) (by norm_num)⟩)
    0 (by decide)).1
    (by
      show binCeil (([0, 100000] : List ℚ).getD 0 0)
        ((fftSizes _ _).getD 0 0) 32000 = 0
      unfold binCeil
      simp)

/-- C7: the normalisation factor computed at configure for channel `i` is
`1/ref²` for NONE, `2/(fftSize·ref²)` for ENERGY,
`2/(fftSize·windowSize·ref²)` for AVERAGE_POWER, and any unrecognised mode
yields the ENERGY formula without failing; the constructor defaults are mode
AVERAGE_POWER and reference value `2e-5`. -/
theorem claim_C7_normalisation (P : PowerSpectrum) (prior : PSState)
    (input : SignalBank)
    (hsucc : (initializeInternal P prior input).2 = none)
    (i : ℕ) (hi : i < P.windowSizes.length) :
    (P.normalisation = .NONE →
      (initializeInternal P prior input).1.normFactor.getD i 0 =
        1 / (P.referenceValue * P.referenceValue)) ∧
    (P.normalisation = .ENERGY →
      (initializeInternal P prior input).1.normFactor.getD i 0 =
        2 / (((fftSizes P input).getD i 0 : ℚ) *
          (P.referenceValue * P.referenceValue))) ∧
    (P.normalisation = .AVERAGE_POWER →
      (initializeInternal P prior input).1.normFactor.getD i 0 =
        2 / (((fftSizes P input).getD i 0 : ℚ) *
          ((P.windowSizes.getD i 0 : ℕ) : ℚ) *
          (P.referenceValue * P.referenceValue))) ∧
    (P.normalisation = .OTHER →
      (initializeInternal P prior input).1.normFactor.getD i 0 =
        2 / (((fftSizes P input).getD i 0 : ℚ) *
          (P.referenceValue * P.referenceValue))) ∧
    (PowerSpectrum.make P.bandFreqsHz P.windowSizes
      P.sampleSpectrumUniformly).normalisation = .AVERAGE_POWER ∧
    (PowerSpectrum.make P.bandFreqsHz P.windowSizes
      P.sampleSpectrumUniformly).referenceValue = 2 / 100000 := by
  obtain ⟨h1, h2, h3, h4⟩ := (init_success_iff P prior input).mp hsucc
  rw [initializeInternal_ok P prior input h1 h2 h3 h4]
  have hnf :
      ((configuredState P input, (none : Option PSError)).1.normFactor.getD
        i 0) =
      chanFac P.windowSizes (fftSizes P input) P.normalisation
        P.referenceValue i :=
    config_nf_getD P input i hi
  rw [hnf]
  refine ⟨fun h => ?_, fun h => ?_, fun h => ?_, fun h => ?_, rfl, rfl⟩ <;>
    simp [chanFac, normFac, h]

/-- C7 witness: with the all-default constructor (AVERAGE_POWER, ref 2e-5),
window `[16]`, fs 32000, the stored factor is `2/(16·16·(2e-5)²)`. -/
theorem claim_C7_normalisation_witness :
    (initializeInternal (.make [1, 2] [16] false) .empty
      ⟨1, 1, 16, 32000, 0⟩).1.normFactor.getD 0 0 =
      2 / ((((fftSizes (.make [1, 2] [16] false) ⟨1, 1, 16, 32000, 0⟩).getD
        0 0 : ℕ) : ℚ) * ((16 : ℕ) : ℚ) * ((2 : ℚ) / 100000 * (2 / 100000))) :=
  (claim_C7_normalisation (.make [1, 2] [16] false) .empty
    ⟨1, 1, 16, 32000, 0⟩
    ((init_success_iff _ _ _).mpr ⟨rfl, rfl, by decide, by
      intro i hi
      have hi1 : i < 1 := hi
      interval_cases i
      exact rawHi_pos_of _ _ _ 0 (by norm_num [PowerSpectrum.make]) (fftSizes_getD_pos _ _ 0
        (by decide)) (by norm_num)⟩)
    0 (by decide)).2.2.1 rfl

/-- C10: the DC clamp fires only on `binLo == 0` exactly: when a channel's
pre-clamp `binLo` is strictly negative, configure accepts it without error and
leaves the stored lower index at that negative value, its (inflated) width is
counted in the declared output width, and the bin iteration the process loop
performs for that channel includes the negative index. -/
theorem claim_C10_negative_binlo (P : PowerSpectrum) (prior : PSState)
    (input : SignalBank)
    (h1 : input.nChannels = P.windowSizes.length)
    (h2 : P.bandFreqsHz.length = P.windowSizes.length + 1)
    (h3 : anyAscendingValues P.windowSizes = false)
    (h4 : ∀ i < P.windowSizes.length,
      0 < rawHi P.bandFreqsHz (fftSizes P input) input.fs i)
    (k : ℕ) (hk : k < P.windowSizes.length)
    (hneg : rawLo P.bandFreqsHz (fftSizes P input) input.fs k < 0) :
    (initializeInternal P prior input).2 = none ∧
    ((initializeInternal P prior input).1.bandBinIndices.getD k (0, 0)).1 =
      rawLo P.bandFreqsHz (fftSizes P input) input.fs k ∧
    ((initializeInternal P prior input).1.bandBinIndices.getD k (0, 0)).1
      < 0 ∧
    (initializeInternal P prior input).1.outputShape =
      some (input.nEars, ((List.range P.windowSizes.length).map
        (chanWidth P.bandFreqsHz (fftSizes P input) input.fs)).sum) ∧
    ((initializeInternal P prior input).1.bandBinIndices.getD k (0, 0)).1 ∈
      binRange
        ((initializeInternal P prior input).1.bandBinIndices.getD k (0, 0)).1
        ((initializeInternal P prior input).1.bandBinIndices.getD k
          (0, 0)).2 := by
  rw [initializeInternal_ok P prior input h1 h2 h3 h4]
  have hpair :
      ((configuredState P input, (none : Option PSError)).1.bandBinIndices.getD
        k (0, 0)) =
      clampedPair P.bandFreqsHz (fftSizes P input) input.fs k :=
    config_bbi_getD P input k hk
  rw [hpair]
  have hlo : (clampedPair P.bandFreqsHz (fftSizes P input) input.fs k).1 =
      rawLo P.bandFreqsHz (fftSizes P input) input.fs k := by
    simp [clampedPair, clampLo, hneg.ne]
  have hhi : 0 < (clampedPair P.bandFreqsHz (fftSizes P input) input.fs k).2 :=
    clampHi_pos _ _ (h4 k hk)
      (nyqIdx_pos _ (fftSizes_getD_pos P input k hk))
  refine ⟨rfl, hlo, by omega, rfl, ?_⟩
  rw [binRange_cons _ _ (by omega)]
  exact List.mem_cons_self _ _

/-- C10 witness: edges `[-12, 8]` Hz, window `[4]`, fs 8: accepted with
stored lower index `-6 < 0`, which the process loop iterates over. -/
theorem claim_C10_negative_binlo_witness :
    (initializeInternal (.make [-12, 8] [4] false) .empty
      ⟨1, 1, 4, 8, 0⟩).2 = none ∧
    ((initializeInternal (.make [-12, 8] [4] false) .empty
      ⟨1, 1, 4, 8, 0⟩).1.bandBinIndices.getD 0 (0, 0)).1 < 0 := by
  have h := claim_C10_negative_binlo (.make [-12, 8] [4] false) .empty
    ⟨1, 1, 4, 8, 0⟩ rfl rfl (by decide)
    (by
      intro i hi
      have hi1 : i < 1 := hi
      interval_cases i
      exact rawHi_pos_of _ _ _ 0 (by norm_num [PowerSpectrum.make]) (fftSizes_getD_pos _ _ 0
        (by decide)) (by norm_num))
    0 (by decide)
    (by
      show binCeil (([-12, 8] : List ℚ).getD 0 0)
        ((fftSizes _ _).getD 0 0) 8 < 0
      unfold binCeil
      refine lt_of_le_of_lt (Int.ceil_le.mpr ?_) (by norm_num : (-1 : ℤ) < 0)
      have h4 : (fftSizes (.make [-12, 8] [4] false)
          ⟨1, 1, 4, 8, 0⟩).getD 0 0 = 4 := by
        norm_num [fftSizes, PowerSpectrum.make, nextPowerOfTwo, Nat.clog]
      rw [h4]
      push_cast
      norm_num)
  exact ⟨h.1, h.2.2.1⟩

/-- C5: process writes, for each ear, the channel-major concatenation over
channels in declared order of `normFactor[chn]·(re² + im²)` for bins
`binLo[chn] ≤ bin < binHi[chn]` in increasing order, where re/im are the
selected engine's outputs for that bin and the selected engine is the shared
engine (index 0) when sampling uniformly, else the channel's own engine. -/
theorem claim_C5_process_output (P : PowerSpectrum) (s : PSState)
    (fft : ℕ → List ℚ → ℤ → ℚ × ℚ) (signal : ℕ → ℕ → List ℚ) (nEars : ℕ) :
    processInternal P s fft signal nEars =
      (List.range nEars).map (fun ear =>
        ((List.range P.windowSizes.length).map (fun chn =>
          (binRange (s.bandBinIndices.getD chn (0, 0)).1
            (s.bandBinIndices.getD chn (0, 0)).2).map (fun bin =>
            s.normFactor.getD chn 0 *
              ((fft (s.ffts.getD
                  (if P.sampleSpectrumUniformly then 0 else chn) 0)
                  ((signal ear chn).take (P.windowSizes.getD chn 0)) bin).1 *
                (fft (s.ffts.getD
                  (if P.sampleSpectrumUniformly then 0 else chn) 0)
                  ((signal ear chn).take (P.windowSizes.getD chn 0)) bin).1 +
                (fft (s.ffts.getD
                  (if P.sampleSpectrumUniformly then 0 else chn) 0)
                  ((signal ear chn).take (P.windowSizes.getD chn 0)) bin).2 *
                (fft (s.ffts.getD
                  (if P.sampleSpectrumUniformly then 0 else chn) 0)
                  ((signal ear chn).take (P.windowSizes.getD chn 0)) bin).2))
          )).flatten) := by
  simp only [processInternal]
  refine List.map_congr_left ?_
  intro ear _
  refine (foldl_append_eq_flatten (fun chn =>
      (binRange (s.bandBinIndices.getD chn (0, 0)).1
        (s.bandBinIndices.getD chn (0, 0)).2).map (fun bin =>
        s.normFactor.getD chn 0 *
          ((fft (s.ffts.getD
              (if P.sampleSpectrumUniformly then 0 else chn) 0)
              ((signal ear chn).take (P.windowSizes.getD chn 0)) bin).1 *
            (fft (s.ffts.getD
              (if P.sampleSpectrumUniformly then 0 else chn) 0)
              ((signal ear chn).take (P.windowSizes.getD chn 0)) bin).1 +
            (fft (s.ffts.getD
              (if P.sampleSpectrumUniformly then 0 else chn) 0)
              ((signal ear chn).take (P.windowSizes.getD chn 0)) bin).2 *
            (fft (s.ffts.getD
              (if P.sampleSpectrumUniformly then 0 else chn) 0)
              ((signal ear chn).take (P.windowSizes.getD chn 0)) bin).2)))
      (List.range P.windowSizes.length) _ ?_ []).trans
    (List.nil_append _)
  intro out chn
  exact powerLoop_eq _ _ _ _ _ rfl out

/-- C2 counterexample: edges `[5000, 6000]` Hz, window `[16]`, fs 32000.
The pre-clamp `binHi = 3` passes the line-83 check, no clamp fires, and
configure succeeds with the stored range `[3, 3)` — an accepted configuration
whose post-clamp `binHi - binLo` is 0, not ≥ 1. -/
theorem claim_C2_counterexample :
    (initializeInternal (.make [5000, 6000] [16] false) .empty
      ⟨1, 1, 16, 32000, 0⟩).2 = none ∧
    ((initializeInternal (.make [5000, 6000] [16] false) .empty
      ⟨1, 1, 16, 32000, 0⟩).1.bandBinIndices.getD 0 (0, 0)).2 -
      ((initializeInternal (.make [5000, 6000] [16] false) .empty
        ⟨1, 1, 16, 32000, 0⟩).1.bandBinIndices.getD 0 (0, 0)).1 = 0 := by
  have h4 : ∀ i < (PowerSpectrum.make [5000, 6000] [16] false).windowSizes.length,
      0 < rawHi (PowerSpectrum.make [5000, 6000] [16] false).bandFreqsHz
        (fftSizes (.make [5000, 6000] [16] false) ⟨1, 1, 16, 32000, 0⟩)
        (⟨1, 1, 16, 32000, 0⟩ : SignalBank).fs i := by
    intro i hi
    have hi1 : i < 1 := hi
    interval_cases i
    exact rawHi_pos_of _ _ _ 0 (by norm_num [PowerSpectrum.make])
      (fftSizes_getD_pos _ _ 0 (by decide)) (by norm_num)
  have hok := initializeInternal_ok (.make [5000, 6000] [16] false) .empty
    ⟨1, 1, 16, 32000, 0⟩ rfl rfl (by decide) h4
  rw [hok]
  refine ⟨rfl, ?_⟩
  rw [config_bbi_getD _ _ 0 (by decide)]
  have hsz : (fftSizes (.make [5000, 6000] [16] false)
      ⟨1, 1, 16, 32000, 0⟩).getD 0 0 = 16 := by
    norm_num [fftSizes, PowerSpectrum.make, nextPowerOfTwo, Nat.clog]
  have e1 : binCeil 5000 16 32000 = 3 := by
    unfold binCeil
    rw [show ((5000 : ℚ) * ((16 : ℕ) : ℚ) / ((32000 : ℕ) : ℚ)) = 5 / 2 by
      push_cast; norm_num]
    rw [Int.ceil_eq_iff] <;> norm_num
  have e2 : binCeil 6000 16 32000 = 3 := by
    unfold binCeil
    rw [show ((6000 : ℚ) * ((16 : ℕ) : ℚ) / ((32000 : ℕ) : ℚ)) = 3 by
      push_cast; norm_num]
    rw [Int.ceil_eq_iff] <;> norm_num
  simp only [clampedPair, rawLo, rawHi]
  rw [hsz]
  simp only [PowerSpectrum.make, List.getD_cons_zero, List.getD_cons_succ]
  rw [e1, e2]
  decide

/-- C2 amended: the EmptyBand check runs BEFORE the DC/Nyquist clamps:
configure fails with EmptyBand naming the first channel whose pre-clamp
`binHi` is ≤ 0, and (shape checks passing) succeeds iff every channel's
pre-clamp `binHi` is ≥ 1; an accepted configuration may still have
`binHi - binLo < 1` after clamping. -/
theorem claim_C2_amended (P : PowerSpectrum) (prior : PSState)
    (input : SignalBank)
    (h1 : input.nChannels = P.windowSizes.length)
    (h2 : P.bandFreqsHz.length = P.windowSizes.length + 1)
    (h3 : anyAscendingValues P.windowSizes = false) :
    ((initializeInternal P prior input).2 = none ↔
      ∀ i < P.windowSizes.length,
        0 < rawHi P.bandFreqsHz (fftSizes P input) input.fs i) ∧
    (∀ k, (initializeInternal P prior input).2 = some (.EmptyBand k) →
      k < P.windowSizes.length ∧
      rawHi P.bandFreqsHz (fftSizes P input) input.fs k ≤ 0 ∧
      ∀ j < k, 0 < rawHi P.bandFreqsHz (fftSizes P input) input.fs j) := by
  constructor
  · rw [init_success_iff P prior input]
    constructor
    · rintro ⟨_, _, _, h⟩
      exact h
    · intro h
      exact ⟨h1, h2, h3, h⟩
  · intro k hk
    exact init_empty_band P prior input k hk

/-- C2 amended witness: edges `[1000, 2000]` Hz, window `[8]`, fs 8000 is
accepted, its single pre-clamp `binHi` being positive. -/
theorem claim_C2_amended_witness :
    (initializeInternal (.make [1000, 2000] [8] false) .empty
      ⟨1, 1, 8, 8000, 0⟩).2 = none :=
  ((claim_C2_amended (.make [1000, 2000] [8] false) .empty
    ⟨1, 1, 8, 8000, 0⟩ rfl rfl (by decide)).1).mpr (by
      intro i hi
      have hi1 : i < 1 := hi
      interval_cases i
      exact rawHi_pos_of _ _ _ 0 (by norm_num [PowerSpectrum.make])
        (fftSizes_getD_pos _ _ 0 (by decide)) (by norm_num))

theorem chanWidth_le (edges : List ℚ) (fftSize : List ℕ) (fs : ℕ) (i : ℕ)
    (hedge : 0 ≤ edges.getD i 0) :
    chanWidth edges fftSize fs i ≤ ((fftSize.getD i 0 : ℕ) : ℤ) / 2 := by
  have hlo : 0 ≤ rawLo edges fftSize fs i := by
    unfold rawLo binCeil
    apply Int.ceil_nonneg
    exact div_nonneg (mul_nonneg hedge (by positivity)) (by positivity)
  unfold chanWidth clampedPair clampLo clampHi nyqIdx
  split <;> split <;> omega

/-- C6 counterexample: edges `[-8, 8]` Hz, window `[4]`, fs 8 is accepted by
configure with declared output width 6 per ear, while `sum(fftSize[i]/2)` is
only 2 — the declared width exceeds the claimed bound. -/
theorem claim_C6_counterexample :
    (initializeInternal (.make [-8, 8] [4] false) .empty
      ⟨1, 1, 4, 8, 0⟩).2 = none ∧
    (initializeInternal (.make [-8, 8] [4] false) .empty
      ⟨1, 1, 4, 8, 0⟩).1.outputShape = some (1, 6) ∧
    ¬ ((6 : ℤ) ≤ ((List.range 1).map (fun i =>
      ((fftSizes (.make [-8, 8] [4] false) ⟨1, 1, 4, 8, 0⟩).getD i 0 : ℤ)
        / 2)).sum) := by
  have hsz : (fftSizes (.make [-8, 8] [4] false) ⟨1, 1, 4, 8, 0⟩).getD 0 0
      = 4 := by
    norm_num [fftSizes, PowerSpectrum.make, nextPowerOfTwo, Nat.clog]
  have e1 : binCeil (-8) 4 8 = -4 := by
    unfold binCeil
    rw [show ((-8 : ℚ) * ((4 : ℕ) : ℚ) / ((8 : ℕ) : ℚ)) = -4 by
      push_cast; norm_num]
    rw [show ((-4 : ℚ)) = ((-4 : ℤ) : ℚ) by norm_num, Int.ceil_intCast]
  have e2 : binCeil 8 4 8 = 4 := by
    unfold binCeil
    rw [show ((8 : ℚ) * ((4 : ℕ) : ℚ) / ((8 : ℕ) : ℚ)) = 4 by
      push_cast; norm_num]
    rw [show ((4 : ℚ)) = ((4 : ℤ) : ℚ) by norm_num, Int.ceil_intCast]
  have h4 : ∀ i < (PowerSpectrum.make [-8, 8] [4] false).windowSizes.length,
      0 < rawHi (PowerSpectrum.make [-8, 8] [4] false).bandFreqsHz
        (fftSizes (.make [-8, 8] [4] false) ⟨1, 1, 4, 8, 0⟩)
        (⟨1, 1, 4, 8, 0⟩ : SignalBank).fs i := by
    intro i hi
    have hi1 : i < 1 := hi
    interval_cases i
    exact rawHi_pos_of _ _ _ 0 (by norm_num [PowerSpectrum.make])
      (fftSizes_getD_pos _ _ 0 (by decide)) (by norm_num)
  have hok := initializeInternal_ok (.make [-8, 8] [4] false) .empty
    ⟨1, 1, 4, 8, 0⟩ rfl rfl (by decide) h4
  rw [hok]
  refine ⟨rfl, ?_, ?_⟩
  · have hn : (PowerSpectrum.make [-8, 8] [4] false).windowSizes.length = 1 :=
      rfl
    have hr1 : List.range 1 = [0] := rfl
    simp only [configuredState, hn, hr1, List.map_cons, List.map_nil,
      List.sum_cons, List.sum_nil]
    simp only [chanWidth, clampedPair, rawLo, rawHi]
    rw [hsz]
    simp only [PowerSpectrum.make, List.getD_cons_zero, List.getD_cons_succ]
    rw [e1, e2]
    decide
  · have hr1 : List.range 1 = [0] := rfl
    simp only [hr1, List.map_cons, List.map_nil, List.sum_cons, List.sum_nil]
    rw [hsz]
    decide

/-- C6 amended: after a successful configure the declared output width per
ear equals the sum over channels of the stored post-clamp `binHi - binLo`
(this part is unconditional); the bound by `sum(fftSize[i]/2)` holds provided
every channel's lower band edge is nonnegative — a strictly negative lower
edge yields a negative `binLo` (see C10) and can inflate the width past the
bound. -/
theorem claim_C6_amended (P : PowerSpectrum) (prior : PSState)
    (input : SignalBank)
    (hsucc : (initializeInternal P prior input).2 = none) :
    ((initializeInternal P prior input).1.outputShape =
      some (input.nEars, ((List.range P.windowSizes.length).map (fun i =>
        ((initializeInternal P prior input).1.bandBinIndices.getD i
          (0, 0)).2 -
        ((initializeInternal P prior input).1.bandBinIndices.getD i
          (0, 0)).1)).sum)) ∧
    ((∀ i < P.windowSizes.length, 0 ≤ P.bandFreqsHz.getD i 0) →
      ((List.range P.windowSizes.length).map (fun i =>
        ((initializeInternal P prior input).1.bandBinIndices.getD i
          (0, 0)).2 -
        ((initializeInternal P prior input).1.bandBinIndices.getD i
          (0, 0)).1)).sum ≤
      ((List.range P.windowSizes.length).map (fun i =>
        ((fftSizes P input).getD i 0 : ℤ) / 2)).sum) := by
  obtain ⟨h1, h2, h3, h4⟩ := (init_success_iff P prior input).mp hsucc
  rw [initializeInternal_ok P prior input h1 h2 h3 h4]
  have hmap : ((List.range P.windowSizes.length).map (fun i =>
      ((configuredState P input, (none : Option PSError)).1.bandBinIndices.getD
        i (0, 0)).2 -
      ((configuredState P input, (none : Option PSError)).1.bandBinIndices.getD
        i (0, 0)).1)) =
      ((List.range P.windowSizes.length).map
        (chanWidth P.bandFreqsHz (fftSizes P input) input.fs)) := by
    refine List.map_congr_left ?_
    intro i hi
    rw [config_bbi_getD P input i (List.mem_range.mp hi)]
    rfl
  rw [hmap]
  refine ⟨rfl, fun hedges => ?_⟩
  refine List.sum_le_sum ?_
  intro i hi
  exact chanWidth_le P.bandFreqsHz (fftSizes P input) input.fs i
    (hedges i (List.mem_range.mp hi))

/-- C6 amended witness: edges `[0, 1000]` Hz, window `[4]`, fs 8000 — the
declared width is bounded by `sum(fftSize/2)`. -/
theorem claim_C6_amended_witness :
    ((List.range 1).map (fun i =>
      ((initializeInternal (.make [0, 1000] [4] false) .empty
        ⟨1, 1, 4, 8000, 0⟩).1.bandBinIndices.getD i (0, 0)).2 -
      ((initializeInternal (.make [0, 1000] [4] false) .empty
        ⟨1, 1, 4, 8000, 0⟩).1.bandBinIndices.getD i (0, 0)).1)).sum ≤
    ((List.range 1).map (fun i =>
      ((fftSizes (.make [0, 1000] [4] false) ⟨1, 1, 4, 8000, 0⟩).getD i 0 : ℤ)
        / 2)).sum :=
  (claim_C6_amended (.make [0, 1000] [4] false) .empty ⟨1, 1, 4, 8000, 0⟩
    ((init_success_iff _ _ _).mpr ⟨rfl, rfl, by decide, by
      intro i hi
      have hi1 : i < 1 := hi
      interval_cases i
      exact rawHi_pos_of _ _ _ 0 (by norm_num [PowerSpectrum.make])
        (fftSizes_getD_pos _ _ 0 (by decide)) (by norm_num)⟩)).2 (by
    intro i hi
    have hi1 : i < 1 := hi
    interval_cases i
    norm_num [PowerSpectrum.make])

/-- C8 counterexample: configure edges `[1, 2]`, window `[4]`, fs 4
successfully, then reconfigure with a mismatched channel count.  The call
fails with ShapeMismatch, yet the resulting state differs from the prior
one: `ffts_.clear()` at line 41 runs before any validation, so the engines of
the prior configuration are destroyed. -/
theorem claim_C8_counterexample :
    (initializeInternal (.make [1, 2] [4] false)
      (initializeInternal (.make [1, 2] [4] false) .empty ⟨1, 1, 4, 4, 0⟩).1
      ⟨1, 2, 4, 4, 0⟩).2 = some .ShapeMismatch ∧
    (initializeInternal (.make [1, 2] [4] false)
      (initializeInternal (.make [1, 2] [4] false) .empty ⟨1, 1, 4, 4, 0⟩).1
      ⟨1, 2, 4, 4, 0⟩).1 ≠
    (initializeInternal (.make [1, 2] [4] false) .empty ⟨1, 1, 4, 4, 0⟩).1 := by
  have herr := init_err_channels (.make [1, 2] [4] false)
    (initializeInternal (.make [1, 2] [4] false) .empty ⟨1, 1, 4, 4, 0⟩).1
    ⟨1, 2, 4, 4, 0⟩ (by decide)
  refine ⟨by rw [herr], ?_⟩
  rw [herr]
  intro hcontra
  have hproj := congrArg PSState.ffts hcontra
  rw [init_ffts (.make [1, 2] [4] false) .empty ⟨1, 1, 4, 4, 0⟩ rfl rfl
    (by decide)] at hproj
  simp [fftSizes, PowerSpectrum.make] at hproj

/-- C8 amended: the no-partial-mutation claim fails — `ffts_.clear()` runs at
entry, before any validation.  What does hold: when a shape/order check
fails, the returned state is exactly the prior state with the FFT engine list
cleared; bin ranges, normalisation factors, output shape and metadata are
untouched, but the prior engines are lost, so the prior configuration is not
left usable. -/
theorem claim_C8_amended (P : PowerSpectrum) (prior : PSState)
    (input : SignalBank)
    (h : input.nChannels ≠ P.windowSizes.length ∨
         P.bandFreqsHz.length ≠ P.windowSizes.length + 1 ∨
         anyAscendingValues P.windowSizes = true) :
    (initializeInternal P prior input).1 = { prior with ffts := [] } := by
  by_cases h1 : input.nChannels = P.windowSizes.length
  case neg => rw [init_err_channels P prior input h1]
  by_cases h2 : P.bandFreqsHz.length = P.windowSizes.length + 1
  case neg => rw [init_err_edges P prior input h1 h2]
  rcases h with h | h | h
  · exact absurd h1 h
  · exact absurd h2 h
  · rw [init_err_ascending P prior input h1 h2 h]

/-- C8 amended witness: a failing reconfigure (channel-count mismatch) on a
concrete prior state returns that state with only the engine list cleared. -/
theorem claim_C8_amended_witness :
    (initializeInternal (.make [1, 2] [4] false)
      (⟨[4], [(1, 2)], [1], some (1, 1), [1], 1⟩ : PSState)
      ⟨1, 2, 4, 4, 0⟩).1 =
    { (⟨[4], [(1, 2)], [1], some (1, 1), [1], 1⟩ : PSState) with ffts := [] } :=
  claim_C8_amended (.make [1, 2] [4] false)
    (⟨[4], [(1, 2)], [1], some (1, 1), [1], 1⟩ : PSState)
    ⟨1, 2, 4, 4, 0⟩ (Or.inl (by decide))

end Loudness
